import Mathlib

/-!
Verification of the zk-terraform-backend state/lock store
(`state_store.go`): a shallow embedding of the five store operations
(Get, Update, Delete, Lock, Unlock) over a ZooKeeper-like coordination
service, together with proofs of the specified properties.

The coordination service is modelled as an association list from paths
to nodes (payload and version).  Fault injection flags model the
failure of each adapter call (connect, exists, get, create, set,
delete) so that the error-classification behaviour of the store can be
stated and proved.
-/

/-- The domain error taxonomy of the store (`errors.New` values in the
source). -/
inductive Err
  | conn
  | notExist
  | createErr
  | updateErr
  | deleteErr
  | readErr
  | writeErr
deriving Repr, DecidableEq

/-- A znode: byte payload (bytes as naturals) plus the service-assigned
version counter. -/
structure Znode where
  payload : List Nat
  version : Nat
deriving Repr, DecidableEq

/-- The coordination service's node space: an association list from path
strings to znodes. -/
abbrev ZkDb := List (String × Znode)

/-- Look up the node stored at a path (first match). -/
def zkLookup (db : ZkDb) (p : String) : Option Znode :=
  match db with
  | [] => none
  | (q, n) :: rest => if q = p then some n else zkLookup rest p

/-- `create(path, payload)`: succeeds only when the path is absent (and
no service fault is injected); a fresh node starts at version 0. -/
def zkCreate (db : ZkDb) (p : String) (payload : List Nat) (fault : Bool) :
    Option ZkDb :=
  if fault then none
  else
    match zkLookup db p with
    | some _ => none
    | none => some ((p, ⟨payload, 0⟩) :: db)

/-- Overwrite the node stored at a path with a new node. -/
def zkWrite (db : ZkDb) (p : String) (n : Znode) : ZkDb :=
  db.map fun e => if e.1 = p then (p, n) else e

/-- `set(path, payload, expectedVersion)`: the version-fenced
conditional write; fails on absence, version mismatch, or an injected
service fault. -/
def zkSet (db : ZkDb) (p : String) (payload : List Nat) (expected : Nat)
    (fault : Bool) : Option ZkDb :=
  match zkLookup db p with
  | none => none
  | some n =>
      if fault then none
      else if n.version = expected then
        some (zkWrite db p ⟨payload, n.version + 1⟩)
      else none

/-- `delete(path, expectedVersion)`: version-fenced delete; fails on
absence, version mismatch, or an injected service fault. -/
def zkDelete (db : ZkDb) (p : String) (expected : Nat) (fault : Bool) :
    Option ZkDb :=
  match zkLookup db p with
  | none => none
  | some n =>
      if fault then none
      else if n.version = expected then
        some (db.filter fun e => decide (e.1 ≠ p))
      else none

/-- Fault-injection profile for one store call: whether each adapter
call fails with a service-side error.  `getFail` means `get` fails for
a reason other than `ErrNoNode`; `createFail`/`setFail`/`deleteFail`
mean the mutating call fails even though its precondition holds. -/
structure Faults where
  connFail : Bool
  existsFail : Bool
  getFail : Bool
  createFail : Bool
  setFail : Bool
  deleteFail : Bool
deriving Repr, DecidableEq

/-- The fault-free profile. -/
def noFaults : Faults := ⟨false, false, false, false, false, false⟩

/-- Result triple of `StateStore.Lock`. -/
structure LockResult where
  alreadyLocked : Bool
  newlockinfo : List Nat
  err : Option Err
deriving Repr, DecidableEq

/-- `StateStore.Get`: connect, `get("/"+name)`; classify failures. -/
def stateStoreGet (db : ZkDb) (f : Faults) (name : String) :
    List Nat × Option Err :=
  let znode := "/" ++ name
  if f.connFail then ([], some .conn)
  else if f.getFail then ([], some .readErr)
  else
    match zkLookup db znode with
    | some n => (n.payload, none)
    | none => ([], some .notExist)

/-- `StateStore.Update`: connect, `exists("/"+name)`; create when
absent, version-fenced set (with the observed version) when present. -/
def stateStoreUpdate (db : ZkDb) (f : Faults) (name : String)
    (state : List Nat) : ZkDb × Option Err :=
  let znode := "/" ++ name
  if f.connFail then (db, some .conn)
  else if f.existsFail then (db, some .readErr)
  else
    match zkLookup db znode with
    | none =>
        match zkCreate db znode state f.createFail with
        | none => (db, some .createErr)
        | some db2 => (db2, none)
    | some n =>
        match zkSet db znode state n.version f.setFail with
        | none => (db, some .updateErr)
        | some db2 => (db2, none)

/-- `StateStore.Delete`: connect, `exists("/"+name)`; absent is
`ErrNotExist`, present is a version-fenced delete. -/
def stateStoreDelete (db : ZkDb) (f : Faults) (name : String) :
    ZkDb × Option Err :=
  let znode := "/" ++ name
  if f.connFail then (db, some .conn)
  else if f.existsFail then (db, some .readErr)
  else
    match zkLookup db znode with
    | none => (db, some .notExist)
    | some n =>
        match zkDelete db znode n.version f.deleteFail with
        | none => (db, some .deleteErr)
        | some db2 => (db2, none)

/-- `StateStore.Lock`: connect, `exists("/lock-"+name)`; a present lock
node is read back and returned with `alreadyLocked = true`; an absent
one is created with the caller's lockinfo. -/
def stateStoreLock (db : ZkDb) (f : Faults) (name : String)
    (lockinfo : List Nat) : ZkDb × LockResult :=
  let znode := "/lock-" ++ name
  if f.connFail then (db, ⟨false, [], some .conn⟩)
  else if f.existsFail then (db, ⟨false, [], some .readErr⟩)
  else
    match zkLookup db znode with
    | some n =>
        if f.getFail then (db, ⟨false, [], some .readErr⟩)
        else (db, ⟨true, n.payload, none⟩)
    | none =>
        match zkCreate db znode lockinfo f.createFail with
        | none => (db, ⟨false, [], some .createErr⟩)
        | some db2 => (db2, ⟨false, lockinfo, none⟩)

/-- `StateStore.Unlock`: connect, `exists("/lock-"+name)`; absent is
`ErrNotExist`, present is a version-fenced delete of the lock node. -/
def stateStoreUnlock (db : ZkDb) (f : Faults) (name : String) :
    ZkDb × Option Err :=
  let znode := "/lock-" ++ name
  if f.connFail then (db, some .conn)
  else if f.existsFail then (db, some .readErr)
  else
    match zkLookup db znode with
    | none => (db, some .notExist)
    | some n =>
        match zkDelete db znode n.version f.deleteFail with
        | none => (db, some .deleteErr)
        | some db2 => (db2, none)

/-- One store operation together with its inputs. -/
inductive StoreOp
  | get (name : String)
  | update (name : String) (payload : List Nat)
  | del (name : String)
  | lock (name : String) (lockinfo : List Nat)
  | unlock (name : String)
deriving Repr, DecidableEq

/-- Run one store operation, returning the resulting node space and the
operation's error component. -/
def runOp (db : ZkDb) (f : Faults) : StoreOp → ZkDb × Option Err
  | .get name => (db, (stateStoreGet db f name).2)
  | .update name payload => stateStoreUpdate db f name payload
  | .del name => stateStoreDelete db f name
  | .lock name lockinfo =>
      let r := stateStoreLock db f name lockinfo
      (r.1, r.2.err)
  | .unlock name => stateStoreUnlock db f name

/-- Decidable test of whether a store operation's mutation target is
the lock path of `name`: because names are spliced into paths without
escaping, `Update`/`Delete` on the aliasing name `"lock-" ++ name`
target the node `"/lock-" ++ name`. -/
def aliasesLock : StoreOp → String → Bool
  | .update n _, name => decide ("/" ++ n = "/lock-" ++ name)
  | .del n, name => decide ("/" ++ n = "/lock-" ++ name)
  | .unlock n, name => decide (n = name)
  | _, _ => false

/-!
Interleaving model of N concurrent `Lock(name, infoᵢ)` calls against
the same never-locked name.  Each caller executes the `Lock` algorithm
with its two coordination-service calls (`exists`, then `get` or
`create` depending on what `exists` observed) as separate atomic steps,
so a scheduler can interleave the callers arbitrarily.  Service faults
are not injected: the race outcome under fault-free adapters is what
the claim is about.
-/

/-- The control point of one racing `Lock` caller: not yet connected,
has performed its `exists` check (recording what it observed), or
finished with a result. -/
inductive RPhase
  | start
  | checked (present : Bool)
  | done (r : LockResult)
deriving Repr, DecidableEq

/-- Whether a racing caller has finished. -/
def RPhase.finished : RPhase → Bool
  | .done _ => true
  | _ => false

/-- Shared state of the race: the lock node's payload (if created) and
each caller's control point. -/
structure RaceState (n : Nat) where
  node : Option (List Nat)
  phase : Fin n → RPhase

/-- One atomic step of caller `i`: perform its next coordination-service
call.  `exists` records presence; after observing "present" the caller
`get`s the node and returns it with `alreadyLocked = true`; after
observing "absent" it attempts the atomic `create`, which fails with
`ErrCreate` when some other caller created the node in between. -/
def raceStep (infos : Fin n → List Nat) (s : RaceState n) (i : Fin n) :
    RaceState n :=
  match s.phase i with
  | .start =>
      { s with phase := Function.update s.phase i (.checked s.node.isSome) }
  | .checked true =>
      match s.node with
      | some p =>
          { s with phase := Function.update s.phase i (.done ⟨true, p, none⟩) }
      | none =>
          { s with
            phase := Function.update s.phase i (.done ⟨false, [], some .readErr⟩) }
  | .checked false =>
      match s.node with
      | some _ =>
          { s with
            phase := Function.update s.phase i (.done ⟨false, [], some .createErr⟩) }
      | none =>
          { node := some (infos i),
            phase := Function.update s.phase i (.done ⟨false, infos i, none⟩) }
  | .done _ => s

/-- Initial race state: lock node absent, no caller has run. -/
def raceInit (n : Nat) : RaceState n := ⟨none, fun _ => .start⟩

/-- Run the race under a schedule (the order in which callers take
steps). -/
def raceRun (infos : Fin n → List Nat) (sched : List (Fin n)) : RaceState n :=
  sched.foldl (raceStep infos) (raceInit n)

/-- Invariant of the race: while the lock node is absent nobody has
finished; once it is present, a unique winner created it with its own
lockinfo, and every other caller is either still running or finished
with the winner's payload (`alreadyLocked = true`) or with
`ErrCreate`. -/
def raceInv (infos : Fin n → List Nat) (s : RaceState n) : Prop :=
  (s.node = none → ∀ i, s.phase i = .start ∨ s.phase i = .checked false) ∧
  (∀ p, s.node = some p →
    ∃ w, s.phase w = .done ⟨false, infos w, none⟩ ∧ p = infos w ∧
      ∀ i, i ≠ w →
        s.phase i = .start ∨ s.phase i = .checked false ∨
        s.phase i = .checked true ∨ s.phase i = .done ⟨true, p, none⟩ ∨
        s.phase i = .done ⟨false, [], some .createErr⟩)

/-- Lockinfo vector used in the concrete race counterexample. -/
def infos2 : Fin 2 → List Nat := fun i => if i.val = 0 then [1] else [2]

theorem String.append_cancel (s t u : String) (h : s ++ t = s ++ u) : t = u := by
  have hd := congrArg String.data h
  simp [String.data_append] at hd
  exact String.ext hd

theorem statePath_ne_lockPath (n name : String) (h : n = name) :
    "/" ++ n ≠ "/lock-" ++ name := by
  subst h
  intro hc
  have hl := congrArg String.length hc
  rw [String.length_append, String.length_append] at hl
  have h1 : "/".length = 1 := rfl
  have h2 : "/lock-".length = 6 := rfl
  rw [h1, h2] at hl
  omega

theorem lockPath_inj (n name : String) (h : "/lock-" ++ n = "/lock-" ++ name) :
    n = name :=
  String.append_cancel _ _ _ h

theorem zkLookup_cons (db : ZkDb) (p q : String) (n : Znode) :
    zkLookup ((p, n) :: db) q = if p = q then some n else zkLookup db q := rfl

theorem zkLookup_cons_self (db : ZkDb) (p : String) (n : Znode) :
    zkLookup ((p, n) :: db) p = some n := by
  rw [zkLookup_cons, if_pos rfl]

theorem zkLookup_cons_ne (db : ZkDb) (p q : String) (n : Znode) (h : q ≠ p) :
    zkLookup ((p, n) :: db) q = zkLookup db q := by
  rw [zkLookup_cons, if_neg (Ne.symm h)]

theorem zkWrite_cons (db : ZkDb) (p r : String) (n m : Znode) :
    zkWrite ((r, m) :: db) p n =
      (if r = p then (p, n) else (r, m)) :: zkWrite db p n := rfl

theorem zkLookup_zkWrite_ne (db : ZkDb) (p q : String) (n : Znode) (h : q ≠ p) :
    zkLookup (zkWrite db p n) q = zkLookup db q := by
  induction db with
  | nil => rfl
  | cons e rest ih =>
      obtain ⟨r, m⟩ := e
      rw [zkWrite_cons]
      by_cases hr : r = p
      · rw [if_pos hr, zkLookup_cons, zkLookup_cons,
          if_neg (Ne.symm h), if_neg (fun h2 : r = q => h (hr ▸ h2.symm))]
        exact ih
      · rw [if_neg hr, zkLookup_cons, zkLookup_cons]
        by_cases hq : r = q
        · rw [if_pos hq, if_pos hq]
        · rw [if_neg hq, if_neg hq]
          exact ih

theorem zkLookup_zkWrite_present (db : ZkDb) (p : String) (n m : Znode)
    (h : zkLookup db p = some m) :
    zkLookup (zkWrite db p n) p = some n := by
  induction db with
  | nil => exact absurd h (by rw [zkLookup]; exact Option.noConfusion)
  | cons e rest ih =>
      obtain ⟨r, k⟩ := e
      rw [zkWrite_cons]
      by_cases hr : r = p
      · rw [if_pos hr, zkLookup_cons, if_pos rfl]
      · rw [zkLookup_cons, if_neg hr] at h
        rw [if_neg hr, zkLookup_cons, if_neg hr]
        exact ih h

theorem filter_cons_key (db : ZkDb) (p r : String) (k : Znode) :
    (((r, k) :: db).filter fun e => decide (e.1 ≠ p)) =
      if r = p then db.filter (fun e => decide (e.1 ≠ p))
      else (r, k) :: db.filter (fun e => decide (e.1 ≠ p)) := by
  by_cases hr : r = p
  · rw [if_pos hr]
    simp [List.filter_cons, hr]
  · rw [if_neg hr]
    simp [List.filter_cons, hr]

theorem zkLookup_filter_self (db : ZkDb) (p : String) :
    zkLookup (db.filter fun e => decide (e.1 ≠ p)) p = none := by
  induction db with
  | nil => rfl
  | cons e rest ih =>
      obtain ⟨r, k⟩ := e
      rw [filter_cons_key]
      by_cases hr : r = p
      · rw [if_pos hr]
        exact ih
      · rw [if_neg hr, zkLookup_cons, if_neg hr]
        exact ih

theorem zkLookup_filter_ne (db : ZkDb) (p q : String) (h : q ≠ p) :
    zkLookup (db.filter fun e => decide (e.1 ≠ p)) q = zkLookup db q := by
  induction db with
  | nil => rfl
  | cons e rest ih =>
      obtain ⟨r, k⟩ := e
      rw [filter_cons_key]
      by_cases hr : r = p
      · rw [if_pos hr, zkLookup_cons, if_neg (fun h2 : r = q => h (hr ▸ h2.symm))]
        exact ih
      · rw [if_neg hr, zkLookup_cons, zkLookup_cons]
        by_cases hq : r = q
        · rw [if_pos hq, if_pos hq]
        · rw [if_neg hq, if_neg hq]
          exact ih

example : stateStoreGet [] noFaults "a" = ([], some .notExist) := by decide

example :
    stateStoreUpdate [] noFaults "a" [1, 2] =
      ([("/a", ⟨[1, 2], 0⟩)], none) := by decide

example :
    stateStoreLock [] noFaults "a" [7] =
      ([("/lock-a", ⟨[7], 0⟩)], ⟨false, [7], none⟩) := by decide

example :
    (stateStoreUpdate [("/lock-a", ⟨[7], 0⟩)] noFaults "lock-a" [9]).1 =
      [("/lock-a", ⟨[9], 1⟩)] := by decide

example (name : String) : ("/" ++ name).length = 1 + name.length := by
  rw [String.length_append]
  rfl

theorem raceInv_init (n : Nat) (infos : Fin n → List Nat) :
    raceInv infos (raceInit n) := by
  constructor
  · intro _ i
    exact Or.inl rfl
  · intro p hp
    exact Option.noConfusion hp

theorem raceInv_step (infos : Fin n → List Nat) (s : RaceState n) (i : Fin n)
    (h : raceInv infos s) : raceInv infos (raceStep infos s i) := by
  obtain ⟨nd, ph⟩ := s
  obtain ⟨hnone, hsome⟩ := h
  dsimp only at hnone hsome
  cases hp : ph i with
  | start =>
      cases hn : nd with
      | none =>
          simp only [raceStep, hp, hn, Option.isSome_none]
          constructor
          · intro _ j
            dsimp only
            by_cases hij : j = i
            · subst hij
              rw [Function.update_same]
              exact Or.inr rfl
            · rw [Function.update_noteq hij]
              exact hnone hn j
          · intro p hp2
            exact Option.noConfusion hp2
      | some p =>
          simp only [raceStep, hp, hn, Option.isSome_some]
          obtain ⟨w, hw, hpw, hothers⟩ := hsome p hn
          have hwi : w ≠ i := fun he => by
            rw [he, hp] at hw
            exact RPhase.noConfusion hw
          constructor
          · intro hc
            exact Option.noConfusion hc
          · intro q hq
            dsimp only at hq ⊢
            obtain rfl : p = q := Option.some.inj hq
            refine ⟨w, ?_, hpw, ?_⟩
            · rw [Function.update_noteq hwi]
              exact hw
            · intro j hjw
              rw [Function.update_apply]
              by_cases hij : j = i
              · rw [if_pos hij]
                exact Or.inr (Or.inr (Or.inl rfl))
              · rw [if_neg hij]
                exact hothers j hjw
  | checked b =>
      cases b with
      | true =>
          cases hn : nd with
          | none =>
              exfalso
              rcases hnone hn i with h1 | h1
              · rw [hp] at h1
                exact RPhase.noConfusion h1
              · rw [hp] at h1
                exact Bool.noConfusion (RPhase.checked.inj h1)
          | some p =>
              simp only [raceStep, hp, hn]
              obtain ⟨w, hw, hpw, hothers⟩ := hsome p hn
              have hwi : w ≠ i := fun he => by
                rw [he, hp] at hw
                exact RPhase.noConfusion hw
              constructor
              · intro hc
                exact Option.noConfusion hc
              · intro q hq
                dsimp only at hq ⊢
                obtain rfl : p = q := Option.some.inj hq
                refine ⟨w, ?_, hpw, ?_⟩
                · rw [Function.update_noteq hwi]
                  exact hw
                · intro j hjw
                  rw [Function.update_apply]
                  by_cases hij : j = i
                  · rw [if_pos hij]
                    exact Or.inr (Or.inr (Or.inr (Or.inl rfl)))
                  · rw [if_neg hij]
                    exact hothers j hjw
      | false =>
          cases hn : nd with
          | none =>
              simp only [raceStep, hp, hn]
              constructor
              · intro hc
                exact Option.noConfusion hc
              · intro q hq
                dsimp only at hq ⊢
                obtain rfl : infos i = q := Option.some.inj hq
                refine ⟨i, ?_, rfl, ?_⟩
                · rw [Function.update_same]
                · intro j hji
                  rw [Function.update_noteq hji]
                  rcases hnone hn j with h1 | h1
                  · exact Or.inl h1
                  · exact Or.inr (Or.inl h1)
          | some p =>
              simp only [raceStep, hp, hn]
              obtain ⟨w, hw, hpw, hothers⟩ := hsome p hn
              have hwi : w ≠ i := fun he => by
                rw [he, hp] at hw
                exact RPhase.noConfusion hw
              constructor
              · intro hc
                exact Option.noConfusion hc
              · intro q hq
                dsimp only at hq ⊢
                obtain rfl : p = q := Option.some.inj hq
                refine ⟨w, ?_, hpw, ?_⟩
                · rw [Function.update_noteq hwi]
                  exact hw
                · intro j hjw
                  rw [Function.update_apply]
                  by_cases hij : j = i
                  · rw [if_pos hij]
                    exact Or.inr (Or.inr (Or.inr (Or.inr rfl)))
                  · rw [if_neg hij]
                    exact hothers j hjw
  | done r =>
      simp only [raceStep, hp]
      exact ⟨hnone, hsome⟩

theorem raceInv_raceRun (infos : Fin n → List Nat) (sched : List (Fin n)) :
    raceInv infos (raceRun infos sched) := by
  have hgen : ∀ s, raceInv infos s →
      raceInv infos (sched.foldl (raceStep infos) s) := by
    induction sched with
    | nil => exact fun s hs => hs
    | cons a l ih => exact fun s hs => ih _ (raceInv_step infos s a hs)
  exact hgen _ (raceInv_init n infos)

theorem update_preserves_other (db : ZkDb) (f : Faults) (name : String)
    (payload : List Nat) (q : String) (h : q ≠ "/" ++ name) :
    zkLookup (stateStoreUpdate db f name payload).1 q = zkLookup db q := by
  obtain ⟨fc, fe, fg, fcr, fs, fd⟩ := f
  cases fc with
  | true => simp [stateStoreUpdate]
  | false =>
  cases fe with
  | true => simp [stateStoreUpdate]
  | false =>
  cases hl : zkLookup db ("/" ++ name) with
  | none =>
      cases fcr with
      | true => simp [stateStoreUpdate, zkCreate, hl]
      | false =>
          simp only [stateStoreUpdate, zkCreate, hl]
          simp only [Bool.false_eq_true, if_false]
          exact zkLookup_cons_ne db _ q _ h
  | some m =>
      cases fs with
      | true => simp [stateStoreUpdate, zkSet, hl]
      | false =>
          simp only [stateStoreUpdate, zkSet, hl]
          simp only [Bool.false_eq_true, if_false, if_pos rfl]
          exact zkLookup_zkWrite_ne db _ q _ h

theorem delete_preserves_other (db : ZkDb) (f : Faults) (name : String)
    (q : String) (h : q ≠ "/" ++ name) :
    zkLookup (stateStoreDelete db f name).1 q = zkLookup db q := by
  obtain ⟨fc, fe, fg, fcr, fs, fd⟩ := f
  cases fc with
  | true => simp [stateStoreDelete]
  | false =>
  cases fe with
  | true => simp [stateStoreDelete]
  | false =>
  cases hl : zkLookup db ("/" ++ name) with
  | none => simp [stateStoreDelete, hl]
  | some m =>
      cases fd with
      | true => simp [stateStoreDelete, zkDelete, hl]
      | false =>
          simp only [stateStoreDelete, zkDelete, hl]
          simp only [Bool.false_eq_true, if_false, if_pos rfl]
          exact zkLookup_filter_ne db _ q h

theorem unlock_preserves_other (db : ZkDb) (f : Faults) (name : String)
    (q : String) (h : q ≠ "/lock-" ++ name) :
    zkLookup (stateStoreUnlock db f name).1 q = zkLookup db q := by
  obtain ⟨fc, fe, fg, fcr, fs, fd⟩ := f
  cases fc with
  | true => simp [stateStoreUnlock]
  | false =>
  cases fe with
  | true => simp [stateStoreUnlock]
  | false =>
  cases hl : zkLookup db ("/lock-" ++ name) with
  | none => simp [stateStoreUnlock, hl]
  | some m =>
      cases fd with
      | true => simp [stateStoreUnlock, zkDelete, hl]
      | false =>
          simp only [stateStoreUnlock, zkDelete, hl]
          simp only [Bool.false_eq_true, if_false, if_pos rfl]
          exact zkLookup_filter_ne db _ q h

theorem lock_preserves_other (db : ZkDb) (f : Faults) (name : String)
    (info : List Nat) (q : String) (h : q ≠ "/lock-" ++ name) :
    zkLookup (stateStoreLock db f name info).1 q = zkLookup db q := by
  obtain ⟨fc, fe, fg, fcr, fs, fd⟩ := f
  cases fc with
  | true => simp [stateStoreLock]
  | false =>
  cases fe with
  | true => simp [stateStoreLock]
  | false =>
  cases hl : zkLookup db ("/lock-" ++ name) with
  | some m =>
      cases fg with
      | true => simp [stateStoreLock, hl]
      | false => simp [stateStoreLock, hl]
  | none =>
      cases fcr with
      | true => simp [stateStoreLock, zkCreate, hl]
      | false =>
          simp only [stateStoreLock, zkCreate, hl]
          simp only [Bool.false_eq_true, if_false]
          exact zkLookup_cons_ne db _ q _ h

theorem lock_preserves_present (db : ZkDb) (f : Faults) (name : String)
    (info : List Nat) (r : Znode)
    (hpres : zkLookup db ("/lock-" ++ name) = some r) :
    (stateStoreLock db f name info).1 = db := by
  obtain ⟨fc, fe, fg, fcr, fs, fd⟩ := f
  cases fc with
  | true => simp [stateStoreLock]
  | false =>
  cases fe with
  | true => simp [stateStoreLock]
  | false =>
  cases fg with
  | true => simp [stateStoreLock, hpres]
  | false => simp [stateStoreLock, hpres]

/-- Claim C1: Lock on a present lock node performs no write and returns
`(alreadyLocked = true, existingLockinfo)`, discarding the caller's
lockinfo; on an absent lock node it creates the node with the caller's
lockinfo and returns `(alreadyLocked = false, lockinfo)`, and returns
`ErrCreate` when that creation fails. -/
theorem lock_idempotent_read_or_create (db : ZkDb) (name : String)
    (info : List Nat) :
    (∀ n, zkLookup db ("/lock-" ++ name) = some n →
       stateStoreLock db noFaults name info = (db, ⟨true, n.payload, none⟩)) ∧
    (zkLookup db ("/lock-" ++ name) = none →
       stateStoreLock db noFaults name info =
         (("/lock-" ++ name, ⟨info, 0⟩) :: db, ⟨false, info, none⟩) ∧
       ∀ f : Faults, f.connFail = false → f.existsFail = false →
         f.createFail = true →
         stateStoreLock db f name info = (db, ⟨false, [], some .createErr⟩)) := by
  constructor
  · intro n hn
    simp [stateStoreLock, noFaults, hn]
  · intro hn
    constructor
    · simp [stateStoreLock, noFaults, zkCreate, hn]
    · intro f hc he hcr
      obtain ⟨fc, fe, fg, fcr, fs, fd⟩ := f
      dsimp only at hc he hcr
      subst hc he hcr
      simp [stateStoreLock, zkCreate, hn]

/-- Witness for claim C1: both branches at concrete inputs — a
present lock node is read back unchanged, an absent one is created. -/
theorem lock_idempotent_read_or_create_witness :
    (zkLookup [("/lock-a", ⟨[5], 0⟩)] ("/lock-" ++ "a") = some ⟨[5], 0⟩ ∧
     stateStoreLock [("/lock-a", ⟨[5], 0⟩)] noFaults "a" [9] =
       ([("/lock-a", ⟨[5], 0⟩)], ⟨true, [5], none⟩)) ∧
    (zkLookup [] ("/lock-" ++ "a") = none ∧
     stateStoreLock [] noFaults "a" [9] =
       (("/lock-" ++ "a", ⟨[9], 0⟩) :: [], ⟨false, [9], none⟩)) :=
  ⟨⟨by decide,
    (lock_idempotent_read_or_create [("/lock-a", ⟨[5], 0⟩)] "a" [9]).1
      ⟨[5], 0⟩ (by decide)⟩,
   ⟨by decide,
    ((lock_idempotent_read_or_create [] "a" [9]).2 (by decide)).1⟩⟩

/-- Claim C2: Update is check-then-act: a failed existence check returns
`ErrRead`; when the node is absent it is created (`nil` on success,
`ErrCreate` on failure); when present a version-fenced set with the
observed version is issued (`nil` on success, `ErrUpdate` on failure);
Update never returns `ErrNotExist`. -/
theorem update_check_then_act (db : ZkDb) (f : Faults) (name : String)
    (payload : List Nat) :
    (f.connFail = false → f.existsFail = true →
       stateStoreUpdate db f name payload = (db, some .readErr)) ∧
    (f.connFail = false → f.existsFail = false →
       (zkLookup db ("/" ++ name) = none →
          (f.createFail = false →
             stateStoreUpdate db f name payload =
               (("/" ++ name, ⟨payload, 0⟩) :: db, none)) ∧
          (f.createFail = true →
             stateStoreUpdate db f name payload = (db, some .createErr))) ∧
       (∀ n, zkLookup db ("/" ++ name) = some n →
          (f.setFail = false →
             stateStoreUpdate db f name payload =
               (zkWrite db ("/" ++ name) ⟨payload, n.version + 1⟩, none)) ∧
          (f.setFail = true →
             stateStoreUpdate db f name payload = (db, some .updateErr)))) ∧
    (stateStoreUpdate db f name payload).2 ≠ some .notExist := by
  obtain ⟨fc, fe, fg, fcr, fs, fd⟩ := f
  refine ⟨?_, ?_, ?_⟩
  · intro hc he
    dsimp only at hc he
    subst hc he
    simp [stateStoreUpdate]
  · intro hc he
    dsimp only at hc he
    subst hc he
    refine ⟨fun hl => ⟨fun hcr => ?_, fun hcr => ?_⟩,
      fun n hl => ⟨fun hs => ?_, fun hs => ?_⟩⟩ <;>
      dsimp only at * <;> subst_vars <;>
      simp [stateStoreUpdate, zkCreate, zkSet, hl]
  · cases fc with
    | true => simp [stateStoreUpdate]
    | false =>
    cases fe with
    | true => simp [stateStoreUpdate]
    | false =>
    cases hl : zkLookup db ("/" ++ name) with
    | none => cases fcr <;> simp [stateStoreUpdate, zkCreate, hl]
    | some n => cases fs <;> simp [stateStoreUpdate, zkSet, hl]

/-- Witness for claim C2: create-when-absent and set-when-present at
concrete inputs. -/
theorem update_check_then_act_witness :
    (zkLookup [] ("/" ++ "a") = none ∧
     stateStoreUpdate [] noFaults "a" [3] = (("/" ++ "a", ⟨[3], 0⟩) :: [], none)) ∧
    (zkLookup [("/a", ⟨[3], 0⟩)] ("/" ++ "a") = some ⟨[3], 0⟩ ∧
     stateStoreUpdate [("/a", ⟨[3], 0⟩)] noFaults "a" [4] =
       (zkWrite [("/a", ⟨[3], 0⟩)] ("/" ++ "a") ⟨[4], 1⟩, none)) :=
  ⟨⟨by decide,
    (((update_check_then_act [] noFaults "a" [3]).2.1 rfl rfl).1
      (by decide)).1 rfl⟩,
   ⟨by decide,
    (((update_check_then_act [("/a", ⟨[3], 0⟩)] noFaults "a" [4]).2.1 rfl rfl).2
      ⟨[3], 0⟩ (by decide)).1 rfl⟩⟩

/-- Claim C4: a successful `Update(name, payload)` followed by
`Get(name)` with no intervening operation returns exactly `payload`,
with no transformation. -/
theorem update_get_roundtrip (db : ZkDb) (name : String)
    (payload : List Nat) :
    (stateStoreUpdate db noFaults name payload).2 = none ∧
    stateStoreGet (stateStoreUpdate db noFaults name payload).1 noFaults
      name = (payload, none) := by
  cases hl : zkLookup db ("/" ++ name) with
  | none =>
      have hstep : stateStoreUpdate db noFaults name payload =
          (("/" ++ name, ⟨payload, 0⟩) :: db, none) := by
        simp [stateStoreUpdate, noFaults, zkCreate, hl]
      rw [hstep]
      refine ⟨rfl, ?_⟩
      simp [stateStoreGet, noFaults, zkLookup_cons_self]
  | some n =>
      have hstep : stateStoreUpdate db noFaults name payload =
          (zkWrite db ("/" ++ name) ⟨payload, n.version + 1⟩, none) := by
        simp [stateStoreUpdate, noFaults, zkSet, hl]
      rw [hstep]
      refine ⟨rfl, ?_⟩
      have hw := zkLookup_zkWrite_present db ("/" ++ name)
        ⟨payload, n.version + 1⟩ n hl
      simp [stateStoreGet, noFaults, hw]

/-- Claim C5: Get returns the stored payload when the node exists and
the read succeeds; `ErrNotExist` exactly when the service reports the
node absent (in particular on a never-written store); any other read
failure is `ErrRead`; a connection failure is `ErrConn`. -/
theorem get_error_classification (db : ZkDb) (f : Faults) (name : String) :
    (f.connFail = true → stateStoreGet db f name = ([], some .conn)) ∧
    (f.connFail = false → f.getFail = true →
       stateStoreGet db f name = ([], some .readErr)) ∧
    (f.connFail = false → f.getFail = false →
       (((stateStoreGet db f name).2 = some .notExist) ↔
          zkLookup db ("/" ++ name) = none) ∧
       ∀ n, zkLookup db ("/" ++ name) = some n →
         stateStoreGet db f name = (n.payload, none)) ∧
    stateStoreGet [] noFaults name = ([], some .notExist) := by
  refine ⟨?_, ?_, ?_, ?_⟩
  · intro hc
    simp [stateStoreGet, hc]
  · intro hc hg
    simp [stateStoreGet, hc, hg]
  · intro hc hg
    constructor
    · cases hl : zkLookup db ("/" ++ name) with
      | none => simp [stateStoreGet, hc, hg, hl]
      | some n => simp [stateStoreGet, hc, hg, hl]
    · intro n hl
      simp [stateStoreGet, hc, hg, hl]
  · simp [stateStoreGet, noFaults, zkLookup]

/-- Witness for claim C5: a present node's payload is returned; a
never-written name yields `ErrNotExist`. -/
theorem get_error_classification_witness :
    (zkLookup [("/a", ⟨[8], 0⟩)] ("/" ++ "a") = some ⟨[8], 0⟩ ∧
     stateStoreGet [("/a", ⟨[8], 0⟩)] noFaults "a" = ([8], none)) ∧
    stateStoreGet [] noFaults "b" = ([], some .notExist) :=
  ⟨⟨by decide,
    ((get_error_classification [("/a", ⟨[8], 0⟩)] noFaults "a").2.2.1 rfl
      rfl).2 ⟨[8], 0⟩ (by decide)⟩,
   (get_error_classification [] noFaults "b").2.2.2⟩

/-- Claim C6: Delete and Unlock on an absent target return
`ErrNotExist` without attempting a delete; on a present target they
issue a version-fenced delete, returning `ErrDelete` on its failure;
a failed existence check returns `ErrRead`. -/
theorem delete_unlock_error_classification (db : ZkDb) (f : Faults)
    (name : String) :
    (f.connFail = false → f.existsFail = false →
       zkLookup db ("/" ++ name) = none →
       stateStoreDelete db f name = (db, some .notExist)) ∧
    (f.connFail = false → f.existsFail = true →
       stateStoreDelete db f name = (db, some .readErr)) ∧
    (∀ n, f.connFail = false → f.existsFail = false → f.deleteFail = true →
       zkLookup db ("/" ++ name) = some n →
       stateStoreDelete db f name = (db, some .deleteErr)) ∧
    (∀ n, f.connFail = false → f.existsFail = false → f.deleteFail = false →
       zkLookup db ("/" ++ name) = some n →
       stateStoreDelete db f name =
         (db.filter fun e => decide (e.1 ≠ "/" ++ name), none)) ∧
    (f.connFail = false → f.existsFail = false →
       zkLookup db ("/lock-" ++ name) = none →
       stateStoreUnlock db f name = (db, some .notExist)) ∧
    (f.connFail = false → f.existsFail = true →
       stateStoreUnlock db f name = (db, some .readErr)) ∧
    (∀ n, f.connFail = false → f.existsFail = false → f.deleteFail = true →
       zkLookup db ("/lock-" ++ name) = some n →
       stateStoreUnlock db f name = (db, some .deleteErr)) ∧
    (∀ n, f.connFail = false → f.existsFail = false → f.deleteFail = false →
       zkLookup db ("/lock-" ++ name) = some n →
       stateStoreUnlock db f name =
         (db.filter fun e => decide (e.1 ≠ "/lock-" ++ name), none)) := by
  obtain ⟨fc, fe, fg, fcr, fs, fd⟩ := f
  refine ⟨fun hc he hl => ?_, fun hc he => ?_, fun n hc he hd hl => ?_,
    fun n hc he hd hl => ?_, fun hc he hl => ?_, fun hc he => ?_,
    fun n hc he hd hl => ?_, fun n hc he hd hl => ?_⟩
  · dsimp only at hc he
    subst_vars
    simp [stateStoreDelete, hl]
  · dsimp only at hc he
    subst_vars
    simp [stateStoreDelete]
  · dsimp only at hc he hd
    subst_vars
    simp [stateStoreDelete, zkDelete, hl]
  · dsimp only at hc he hd
    subst_vars
    simp [stateStoreDelete, zkDelete, hl]
  · dsimp only at hc he
    subst_vars
    simp [stateStoreUnlock, hl]
  · dsimp only at hc he
    subst_vars
    simp [stateStoreUnlock]
  · dsimp only at hc he hd
    subst_vars
    simp [stateStoreUnlock, zkDelete, hl]
  · dsimp only at hc he hd
    subst_vars
    simp [stateStoreUnlock, zkDelete, hl]

/-- Witness for claim C6: absent targets yield `ErrNotExist`; a present
lock node is deleted by Unlock. -/
theorem delete_unlock_error_classification_witness :
    (zkLookup [] ("/" ++ "a") = none ∧
     stateStoreDelete [] noFaults "a" = ([], some .notExist)) ∧
    (zkLookup [("/lock-a", ⟨[5], 0⟩)] ("/lock-" ++ "a") = some ⟨[5], 0⟩ ∧
     stateStoreUnlock [("/lock-a", ⟨[5], 0⟩)] noFaults "a" =
       ([("/lock-a", ⟨[5], 0⟩)].filter fun e =>
          decide (e.1 ≠ "/lock-" ++ "a"), none)) :=
  ⟨⟨by decide,
    (delete_unlock_error_classification [] noFaults "a").1 rfl rfl
      (by decide)⟩,
   ⟨by decide,
    (delete_unlock_error_classification [("/lock-a", ⟨[5], 0⟩)] noFaults
      "a").2.2.2.2.2.2.2 ⟨[5], 0⟩ rfl rfl rfl (by decide)⟩⟩

/-- Claim C7: for every name the state path `"/" ++ name` and the lock
path `"/lock-" ++ name` are distinct strings, and the two records have
independent lifecycles: Delete never touches the lock node of the same
name, and Unlock never touches the state node of the same name. -/
theorem state_lock_paths_disjoint_lifecycles (name : String) :
    ("/" ++ name ≠ "/lock-" ++ name) ∧
    (∀ db : ZkDb, ∀ f : Faults,
       zkLookup (stateStoreDelete db f name).1 ("/lock-" ++ name) =
         zkLookup db ("/lock-" ++ name)) ∧
    (∀ db : ZkDb, ∀ f : Faults,
       zkLookup (stateStoreUnlock db f name).1 ("/" ++ name) =
         zkLookup db ("/" ++ name)) := by
  have hne := statePath_ne_lockPath name name rfl
  refine ⟨hne, ?_, ?_⟩
  · intro db f
    exact delete_preserves_other db f name _ (Ne.symm hne)
  · intro db f
    exact unlock_preserves_other db f name _ hne

/-- Witness for claim C7: deleting the state of `"a"` leaves the lock
node of `"a"` in place. -/
theorem state_lock_paths_disjoint_lifecycles_witness :
    zkLookup
        (stateStoreDelete [("/a", ⟨[1], 0⟩), ("/lock-a", ⟨[5], 0⟩)] noFaults
          "a").1 ("/lock-" ++ "a") = some ⟨[5], 0⟩ :=
  ((state_lock_paths_disjoint_lifecycles "a").2.1
    [("/a", ⟨[1], 0⟩), ("/lock-a", ⟨[5], 0⟩)] noFaults).trans (by decide)

/-- Claim C8: every store operation that returns a non-nil error leaves
the coordination-service state exactly as it was before the call. -/
theorem store_ops_error_atomic (db : ZkDb) (f : Faults) (op : StoreOp)
    (h : (runOp db f op).2 ≠ none) : (runOp db f op).1 = db := by
  cases op with
  | get name => rfl
  | update name payload =>
      obtain ⟨fc, fe, fg, fcr, fs, fd⟩ := f
      cases fc with
      | true => simp [runOp, stateStoreUpdate]
      | false =>
      cases fe with
      | true => simp [runOp, stateStoreUpdate]
      | false =>
      cases hl : zkLookup db ("/" ++ name) with
      | none =>
          cases fcr with
          | true => simp [runOp, stateStoreUpdate, zkCreate, hl]
          | false => simp [runOp, stateStoreUpdate, zkCreate, hl] at h
      | some n =>
          cases fs with
          | true => simp [runOp, stateStoreUpdate, zkSet, hl]
          | false => simp [runOp, stateStoreUpdate, zkSet, hl] at h
  | del name =>
      obtain ⟨fc, fe, fg, fcr, fs, fd⟩ := f
      cases fc with
      | true => simp [runOp, stateStoreDelete]
      | false =>
      cases fe with
      | true => simp [runOp, stateStoreDelete]
      | false =>
      cases hl : zkLookup db ("/" ++ name) with
      | none => simp [runOp, stateStoreDelete, hl]
      | some n =>
          cases fd with
          | true => simp [runOp, stateStoreDelete, zkDelete, hl]
          | false => simp [runOp, stateStoreDelete, zkDelete, hl] at h
  | lock name info =>
      obtain ⟨fc, fe, fg, fcr, fs, fd⟩ := f
      cases fc with
      | true => simp [runOp, stateStoreLock]
      | false =>
      cases fe with
      | true => simp [runOp, stateStoreLock]
      | false =>
      cases hl : zkLookup db ("/lock-" ++ name) with
      | some n =>
          cases fg with
          | true => simp [runOp, stateStoreLock, hl]
          | false => simp [runOp, stateStoreLock, hl] at h
      | none =>
          cases fcr with
          | true => simp [runOp, stateStoreLock, zkCreate, hl]
          | false => simp [runOp, stateStoreLock, zkCreate, hl] at h
  | unlock name =>
      obtain ⟨fc, fe, fg, fcr, fs, fd⟩ := f
      cases fc with
      | true => simp [runOp, stateStoreUnlock]
      | false =>
      cases fe with
      | true => simp [runOp, stateStoreUnlock]
      | false =>
      cases hl : zkLookup db ("/lock-" ++ name) with
      | none => simp [runOp, stateStoreUnlock, hl]
      | some n =>
          cases fd with
          | true => simp [runOp, stateStoreUnlock, zkDelete, hl]
          | false => simp [runOp, stateStoreUnlock, zkDelete, hl] at h

/-- Witness for claim C8: a failing Delete on an empty store leaves the
store unchanged. -/
theorem store_ops_error_atomic_witness :
    (runOp [] noFaults (.del "a")).2 ≠ none ∧
    (runOp [] noFaults (.del "a")).1 = [] :=
  ⟨by decide, store_ops_error_atomic [] noFaults (.del "a") (by decide)⟩

/-- Claim C10: whenever Lock returns a non-nil error it returns
`alreadyLocked = false` with empty lockinfo; `alreadyLocked = true` is
returned only with a nil error and the existing lock node's payload. -/
theorem lock_error_result_shape (db : ZkDb) (f : Faults) (name : String)
    (info : List Nat) :
    ((stateStoreLock db f name info).2.err ≠ none →
       (stateStoreLock db f name info).2.alreadyLocked = false ∧
       (stateStoreLock db f name info).2.newlockinfo = []) ∧
    ((stateStoreLock db f name info).2.alreadyLocked = true →
       (stateStoreLock db f name info).2.err = none ∧
       ∃ n, zkLookup db ("/lock-" ++ name) = some n ∧
         (stateStoreLock db f name info).2.newlockinfo = n.payload) := by
  obtain ⟨fc, fe, fg, fcr, fs, fd⟩ := f
  cases fc with
  | true => simp [stateStoreLock]
  | false =>
  cases fe with
  | true => simp [stateStoreLock]
  | false =>
  cases hl : zkLookup db ("/lock-" ++ name) with
  | some m =>
      cases fg with
      | true => simp [stateStoreLock, hl]
      | false =>
          refine ⟨fun h => absurd (by simp [stateStoreLock, hl]) h, fun _ => ?_⟩
          exact ⟨by simp [stateStoreLock, hl], m, rfl, by simp [stateStoreLock, hl]⟩
  | none =>
      cases fcr with
      | true => simp [stateStoreLock, zkCreate, hl]
      | false => simp [stateStoreLock, zkCreate, hl]

/-- Witness for claim C10: a connection failure yields
`(false, [], ErrConn)`. -/
theorem lock_error_result_shape_witness :
    (stateStoreLock [] ⟨true, false, false, false, false, false⟩ "a"
        [9]).2.err ≠ none ∧
    (stateStoreLock [] ⟨true, false, false, false, false, false⟩ "a"
        [9]).2.alreadyLocked = false ∧
    (stateStoreLock [] ⟨true, false, false, false, false, false⟩ "a"
        [9]).2.newlockinfo = [] :=
  ⟨by decide,
   (lock_error_result_shape [] ⟨true, false, false, false, false, false⟩ "a"
     [9]).1 (by decide)⟩

/-- Claim C3 (counterexample): because names are spliced into paths
unescaped, `Update("lock-a", ...)` targets the very node created by
`Lock("a", ...)` and overwrites its payload — refuting the claim that
no store operation on any input ever overwrites a lock payload. -/
theorem lock_payload_overwritten_by_aliasing_update :
    zkLookup (stateStoreLock [] noFaults "a" [7]).1 ("/lock-" ++ "a") =
      some ⟨[7], 0⟩ ∧
    zkLookup
        (stateStoreUpdate (stateStoreLock [] noFaults "a" [7]).1 noFaults
          "lock-a" [9]).1 ("/lock-" ++ "a") =
      some ⟨[9], 1⟩ := by
  constructor
  · decide
  · decide

/-- Claim C3 (amended): once the lock node of `name` exists, every
store operation whose mutation target is not the lock path
`"/lock-" ++ name` itself leaves that node — payload and version —
untouched; in particular Lock on an existing lock node is a pure
read. Only `Unlock(name)` and, through path aliasing,
`Update`/`Delete` on the name `"lock-" ++ name` can touch it. -/
theorem lock_payload_immutable_unless_aliased (db : ZkDb) (f : Faults)
    (name : String) (r : Znode) (op : StoreOp)
    (hpres : zkLookup db ("/lock-" ++ name) = some r)
    (halias : aliasesLock op name = false) :
    zkLookup (runOp db f op).1 ("/lock-" ++ name) = some r := by
  cases op with
  | get n => exact hpres
  | update n payload =>
      simp only [aliasesLock, decide_eq_false_iff_not] at halias
      exact (update_preserves_other db f n payload _
        (fun he => halias he.symm)).trans hpres
  | del n =>
      simp only [aliasesLock, decide_eq_false_iff_not] at halias
      exact (delete_preserves_other db f n _
        (fun he => halias he.symm)).trans hpres
  | lock n info =>
      by_cases hpq : "/lock-" ++ name = "/lock-" ++ n
      · have hnn : n = name := (lockPath_inj name n hpq).symm
        subst hnn
        show zkLookup (stateStoreLock db f n info).1 ("/lock-" ++ n) = some r
        rw [lock_preserves_present db f n info r hpres]
        exact hpres
      · exact (lock_preserves_other db f n info _ hpq).trans hpres
  | unlock n =>
      simp only [aliasesLock, decide_eq_false_iff_not] at halias
      exact (unlock_preserves_other db f n _
        (fun he => halias (lockPath_inj n name he.symm))).trans hpres

/-- Witness for claim C3 (amended): an Update of the distinct name
`"b"` leaves the lock node of `"a"` untouched. -/
theorem lock_payload_immutable_unless_aliased_witness :
    (zkLookup [("/lock-a", ⟨[7], 0⟩)] ("/lock-" ++ "a") = some ⟨[7], 0⟩ ∧
     aliasesLock (.update "b" [9]) "a" = false) ∧
    zkLookup (runOp [("/lock-a", ⟨[7], 0⟩)] noFaults (.update "b" [9])).1
        ("/lock-" ++ "a") = some ⟨[7], 0⟩ :=
  ⟨⟨by decide, by decide⟩,
   lock_payload_immutable_unless_aliased [("/lock-a", ⟨[7], 0⟩)] noFaults
     "a" ⟨[7], 0⟩ (.update "b" [9]) (by decide) (by decide)⟩

/-- Claim C9 (counterexample): in the interleaving where both racing
callers pass their `exists` check before either creates, the loser
returns `(alreadyLocked = false, [], ErrCreate)` — not
`alreadyLocked = true` with the winner's lockinfo as claimed. -/
theorem lock_race_loser_gets_errcreate :
    (raceRun infos2 [0, 1, 0, 1]).phase 0 = .done ⟨false, infos2 0, none⟩ ∧
    (raceRun infos2 [0, 1, 0, 1]).phase 1 =
      .done ⟨false, [], some .createErr⟩ ∧
    (raceRun infos2 [0, 1, 0, 1]).phase 1 ≠ .done ⟨true, infos2 0, none⟩ := by
  refine ⟨by decide, by decide, by decide⟩

/-- Claim C9 (amended): when N concurrent Lock calls race on a
never-locked name, under every interleaving in which all callers
finish, exactly one caller returns `alreadyLocked = false` with its own
lockinfo, and each other caller either returns `alreadyLocked = true`
with lockinfo identical to the winner's, or fails with `ErrCreate`
(having lost the creation race). -/
theorem lock_race_unique_winner (n : Nat) (infos : Fin n → List Nat)
    (sched : List (Fin n)) (hn : 0 < n)
    (hdone : ∀ i, ((raceRun infos sched).phase i).finished = true) :
    ∃ w, (raceRun infos sched).phase w = .done ⟨false, infos w, none⟩ ∧
      (∀ i, i ≠ w →
        (raceRun infos sched).phase i = .done ⟨true, infos w, none⟩ ∨
        (raceRun infos sched).phase i = .done ⟨false, [], some .createErr⟩) ∧
      (∀ i, (raceRun infos sched).phase i = .done ⟨false, infos i, none⟩ →
        i = w) := by
  obtain ⟨hnone, hsome⟩ := raceInv_raceRun infos sched
  cases hnode : (raceRun infos sched).node with
  | none =>
      exfalso
      have hd := hdone ⟨0, hn⟩
      rcases hnone hnode ⟨0, hn⟩ with h1 | h1 <;>
        rw [h1] at hd <;> simp [RPhase.finished] at hd
  | some p =>
      obtain ⟨w, hw, hpw, hothers⟩ := hsome p hnode
      subst hpw
      refine ⟨w, hw, ?_, ?_⟩
      · intro i hiw
        rcases hothers i hiw with h1 | h1 | h1 | h1 | h1
        · have hd := hdone i
          rw [h1] at hd
          simp [RPhase.finished] at hd
        · have hd := hdone i
          rw [h1] at hd
          simp [RPhase.finished] at hd
        · have hd := hdone i
          rw [h1] at hd
          simp [RPhase.finished] at hd
        · exact Or.inl h1
        · exact Or.inr h1
      · intro i hi
        by_cases hiw : i = w
        · exact hiw
        · exfalso
          rcases hothers i hiw with h1 | h1 | h1 | h1 | h1 <;>
            rw [h1] at hi <;> simp at hi

/-- Witness for claim C9 (amended): a two-caller race in which the
loser's `exists` check runs after the winner's `create`, so that all
callers finish. -/
theorem lock_race_unique_winner_witness :
    (0 < 2 ∧ ∀ i : Fin 2,
        ((raceRun infos2 [0, 0, 1, 1]).phase i).finished = true) ∧
    (∃ w, (raceRun infos2 [0, 0, 1, 1]).phase w =
        .done ⟨false, infos2 w, none⟩ ∧
      (∀ i, i ≠ w →
        (raceRun infos2 [0, 0, 1, 1]).phase i =
          .done ⟨true, infos2 w, none⟩ ∨
        (raceRun infos2 [0, 0, 1, 1]).phase i =
          .done ⟨false, [], some .createErr⟩) ∧
      (∀ i, (raceRun infos2 [0, 0, 1, 1]).phase i =
          .done ⟨false, infos2 i, none⟩ → i = w)) :=
  ⟨⟨by decide, by decide⟩,
   lock_race_unique_winner 2 infos2 [0, 0, 1, 1] (by decide) (by decide)⟩
